import Mathlib

/-!
Verification of `claude_sessions.py` (session detector / browser for Claude
Code sessions).  The Python source is embedded shallowly: file contents are
`List Char`, JSON records are an inductive `JVal` with an executable parser
modelling `json.loads`, timestamps are parsed by a model of
`datetime.fromisoformat` restricted to the `YYYY-MM-DD[THH:MM[:SS[.ffffff]]]
[+HH:MM]` shape actually used by the transcripts, and every fallible step of
`get_saved_sessions` is translated including the distinction between
exceptions the code catches (`json.JSONDecodeError`, `KeyError`,
`ValueError` -> the file is skipped) and exceptions it does not catch
(`AttributeError` / `TypeError` on non-object records -> the whole scan
aborts), modelled by the three-valued `ExtractR`.
-/

/-- Convert a string literal to the `List Char` representation used
throughout the development. -/
def lc (s : String) : List Char := s.toList

/-- The whitespace characters stripped by Python `str.strip()` (ASCII
subset: space, tab, newline, carriage return, vertical tab, form feed). -/
def isSpaceC (c : Char) : Bool :=
  c == ' ' || c == '\t' || c == '\n' || c == '\r' ||
  c == (Char.ofNat 11) || c == (Char.ofNat 12)

/-- Python `str.lstrip()` on char lists. -/
def stripL (l : List Char) : List Char := l.dropWhile isSpaceC

/-- Python `str.rstrip()` on char lists. -/
def stripR (l : List Char) : List Char := (l.reverse.dropWhile isSpaceC).reverse

/-- Python `str.strip()` on char lists. -/
def strip (l : List Char) : List Char := stripL (stripR l)

/-- Python `s.split('\n')[-1]`: the suffix after the last newline (the whole
string when it has no newline).  `''.split('\n')` is `['']`, so the result
for `[]` is `[]`; the `if last_lines else first_line` branch of the source
is dead code. -/
def lastSeg (l : List Char) : List Char :=
  (l.reverse.takeWhile (fun c => !(c == '\n'))).reverse

/-- The last `n` characters of `l` (what `f.seek(file_size - read_size);
f.read()` returns). -/
def takeRight (n : Nat) (l : List Char) : List Char := l.drop (l.length - n)

/-- `f.readline()` with its trailing newline removed (the subsequent
`strip()` in the source removes the newline anyway). -/
def firstLine (l : List Char) : List Char := l.takeWhile (fun c => !(c == '\n'))

/-- The bounded suffix read of `get_saved_sessions`
(src/claude_sessions.py:154-159): seek to `min(budget, file_size)` bytes
before the end of the file, read to the end, `strip()` the window and take
the last `'\n'`-separated piece. -/
def tailRead (budget : Nat) (l : List Char) : List Char :=
  lastSeg (strip (takeRight (min budget l.length) l))

/-- The last complete line obtained by reading the entire file line by
line: drop a final newline if present, then take the suffix after the last
remaining newline. -/
def lastLineOf (l : List Char) : List Char :=
  lastSeg (if l.getLast? = some '\n' then l.dropLast else l)

theorem lastSeg_spot : lastSeg (lc ("ab\ncd")) = lc ("cd") := by decide

theorem tailRead_spot : tailRead 4096 (lc ("ab\ncd\n")) = lc ("cd") := by decide

/-! ## JSON values and a model of `json.loads`

`JVal` represents the Python objects produced by `json.loads`; `jnum`
keeps the raw numeral token (no claim inspects numeric values).  The
parser is fueled; `jsonParse` supplies `length + 1` fuel, which is enough
because every recursive call consumes at least one character first.
Out of modelled scope: `NaN`/`Infinity` literals and surrogate-pair
joining in `\uXXXX` escapes. -/

inductive JVal where
  | jnull
  | jbool (b : Bool)
  | jnum (raw : List Char)
  | jstr (s : List Char)
  | jarr (xs : List JVal)
  | jobj (fs : List (List Char × JVal))

/-- The whitespace accepted between JSON tokens (`json.decoder`:
space, tab, newline, carriage return). -/
def jsonWs (c : Char) : Bool := c == ' ' || c == '\t' || c == '\n' || c == '\r'

def skipWs (l : List Char) : List Char := l.dropWhile jsonWs

def hexD (c : Char) : Option Nat :=
  if c.isDigit then some (c.toNat - 48)
  else if 'a' ≤ c ∧ c ≤ 'f' then some (c.toNat - 87)
  else if 'A' ≤ c ∧ c ≤ 'F' then some (c.toNat - 55)
  else none

def escChar : Char → Option Char
  | '"' => some '"'
  | '\\' => some '\\'
  | '/' => some '/'
  | 'b' => some (Char.ofNat 8)
  | 'f' => some (Char.ofNat 12)
  | 'n' => some '\n'
  | 'r' => some '\r'
  | 't' => some '\t'
  | _ => none

/-- JSON string body (the opening quote already consumed); returns the
decoded characters and the remaining input. -/
def pStrBody : Nat → List Char → Option (List Char × List Char)
  | 0, _ => none
  | _, [] => none
  | fuel + 1, c :: rest =>
    if c == '"' then some ([], rest)
    else if c == '\\' then
      match rest with
      | [] => none
      | e :: rest2 =>
        if e == 'u' then
          match rest2 with
          | h1 :: h2 :: h3 :: h4 :: rest3 =>
            match hexD h1, hexD h2, hexD h3, hexD h4 with
            | some a, some b, some c3, some d =>
              (pStrBody fuel rest3).map
                (fun p => (Char.ofNat (((a * 16 + b) * 16 + c3) * 16 + d) :: p.1, p.2))
            | _, _, _, _ => none
          | _ => none
        else
          match escChar e with
          | some ec => (pStrBody fuel rest2).map (fun p => (ec :: p.1, p.2))
          | none => none
    else if c.toNat < 32 then none
    else (pStrBody fuel rest).map (fun p => (c :: p.1, p.2))

/-- Integer part of a JSON numeral: `0` or a nonzero digit followed by
digits. -/
def pIntPart : List Char → Option (List Char × List Char)
  | [] => none
  | c :: rest =>
    if c == '0' then some (['0'], rest)
    else if c.isDigit then
      some (c :: rest.takeWhile Char.isDigit, rest.dropWhile Char.isDigit)
    else none

def pFracPart : List Char → Option (List Char × List Char)
  | '.' :: r =>
    let ds := r.takeWhile Char.isDigit
    if ds.isEmpty then none else some ('.' :: ds, r.dropWhile Char.isDigit)
  | l => some ([], l)

def pExpPart : List Char → Option (List Char × List Char)
  | c :: r =>
    if c == 'e' || c == 'E' then
      let (sg, r2) : List Char × List Char :=
        match r with
        | s :: r2 => if s == '+' || s == '-' then ([s], r2) else ([], s :: r2)
        | [] => ([], [])
      let ds := r2.takeWhile Char.isDigit
      if ds.isEmpty then none
      else some (c :: sg ++ ds, r2.dropWhile Char.isDigit)
    else some ([], c :: r)
  | [] => some ([], [])

/-- A JSON numeral token `-?(0|[1-9][0-9]*)(\.[0-9]+)?([eE][+-]?[0-9]+)?`. -/
def pNum (l : List Char) : Option (List Char × List Char) :=
  let sl : List Char × List Char :=
    match l with
    | '-' :: r => (['-'], r)
    | _ => ([], l)
  match pIntPart sl.2 with
  | none => none
  | some (ip, l2) =>
    match pFracPart l2 with
    | none => none
    | some (fp, l3) =>
      match pExpPart l3 with
      | none => none
      | some (ep, l4) => some (sl.1 ++ ip ++ fp ++ ep, l4)

mutual

def pVal : Nat → List Char → Option (JVal × List Char)
  | 0, _ => none
  | fuel + 1, l =>
    match skipWs l with
    | [] => none
    | c :: rest =>
      if c == '"' then
        (pStrBody (rest.length + 1) rest).map (fun p => (JVal.jstr p.1, p.2))
      else if c == '{' then
        match skipWs rest with
        | '}' :: r2 => some (JVal.jobj [], r2)
        | _ => (pObjItems fuel rest).map (fun p => (JVal.jobj p.1, p.2))
      else if c == '[' then
        match skipWs rest with
        | ']' :: r2 => some (JVal.jarr [], r2)
        | _ => (pArrItems fuel rest).map (fun p => (JVal.jarr p.1, p.2))
      else if c == 't' then
        match rest with
        | 'r' :: 'u' :: 'e' :: r => some (JVal.jbool true, r)
        | _ => none
      else if c == 'f' then
        match rest with
        | 'a' :: 'l' :: 's' :: 'e' :: r => some (JVal.jbool false, r)
        | _ => none
      else if c == 'n' then
        match rest with
        | 'u' :: 'l' :: 'l' :: r => some (JVal.jnull, r)
        | _ => none
      else
        (pNum (c :: rest)).map (fun p => (JVal.jnum p.1, p.2))

def pArrItems : Nat → List Char → Option (List JVal × List Char)
  | 0, _ => none
  | fuel + 1, l =>
    match pVal fuel l with
    | none => none
    | some (v, r) =>
      match skipWs r with
      | ',' :: r2 => (pArrItems fuel r2).map (fun p => (v :: p.1, p.2))
      | ']' :: r2 => some ([v], r2)
      | _ => none

def pObjItems : Nat → List Char → Option (List (List Char × JVal) × List Char)
  | 0, _ => none
  | fuel + 1, l =>
    match skipWs l with
    | '"' :: rest =>
      match pStrBody (rest.length + 1) rest with
      | none => none
      | some (k, r) =>
        match skipWs r with
        | ':' :: r2 =>
          match pVal fuel r2 with
          | none => none
          | some (v, r3) =>
            match skipWs r3 with
            | ',' :: r4 => (pObjItems fuel r4).map (fun p => ((k, v) :: p.1, p.2))
            | '}' :: r4 => some ([(k, v)], r4)
            | _ => none
        | _ => none
    | _ => none

end

/-- Model of `json.loads` on char lists: parse one value, allow trailing
whitespace only. -/
def jsonParse (l : List Char) : Option JVal :=
  match pVal (l.length + 1) l with
  | some (v, r) => if (skipWs r).isEmpty then some v else none
  | none => none

/-- Python `dict` lookup on the parsed member list: later duplicate keys
overwrite earlier ones, so look up the last binding. -/
def jget (fs : List (List Char × JVal)) (k : List Char) : Option JVal :=
  (fs.reverse.find? (fun p => p.1 == k)).map (fun p => p.2)

theorem jsonParse_spot :
    (jsonParse (lc ("\x7b\"a\": [1, true], \"b\": \"x\"\x7d"))).isSome = true := by decide

/-! ## Model of `datetime.fromisoformat`

`get_saved_sessions` calls
`datetime.fromisoformat(entry['timestamp'].replace('Z', '+00:00'))` and then
drops the timezone with `.replace(tzinfo=None)`, keeping the wall-clock
fields.  The model below accepts the shape
`YYYY-MM-DD[ (T| ) HH:MM[:SS[.(1-6 digits)]]][±HH:MM]` with the same range
validation (month, day-of-month with leap years, hour, minute, second,
offset), and returns the naive datetime encoded as a single `Nat` that is
strictly monotone in the lexicographic field order, so `≤`/`<` on codes
agree with naive `datetime` comparison.  Week/ordinal dates and other rare
ISO forms accepted by Python 3.11+ are outside the modelled domain. -/

def digitVal (c : Char) : Option Nat :=
  if c.isDigit then some (c.toNat - 48) else none

def read2 : List Char → Option (Nat × List Char)
  | a :: b :: r =>
    match digitVal a, digitVal b with
    | some x, some y => some (x * 10 + y, r)
    | _, _ => none
  | _ => none

def read4 : List Char → Option (Nat × List Char)
  | a :: b :: c :: d :: r =>
    match digitVal a, digitVal b, digitVal c, digitVal d with
    | some x, some y, some z, some w => some (((x * 10 + y) * 10 + z) * 10 + w, r)
    | _, _, _, _ => none
  | _ => none

def isLeap (y : Nat) : Bool := (y % 4 == 0 && y % 100 != 0) || y % 400 == 0

def daysInMonth (y m : Nat) : Nat :=
  if m == 2 then (if isLeap y then 29 else 28)
  else if m == 4 || m == 6 || m == 9 || m == 11 then 30
  else 31

/-- Encode naive datetime fields as one `Nat`, monotone in field order. -/
def dtCode (y mo d h mi s us : Nat) : Nat :=
  (((((y * 12 + (mo - 1)) * 31 + (d - 1)) * 24 + h) * 60 + mi) * 60 + s) * 1000000 + us

/-- Timezone suffix `±HH:MM` (offset strictly below 24 hours), or nothing. -/
def parseTz : List Char → Option Unit
  | [] => some ()
  | c :: r =>
    if c == '+' || c == '-' then
      match read2 r with
      | some (th, r2) =>
        match r2 with
        | ':' :: r3 =>
          match read2 r3 with
          | some (tm, r4) =>
            if th < 24 && tm < 60 && r4.isEmpty then some () else none
          | none => none
        | _ => none
      | none => none
    else none

/-- `[:SS[.ffffff]]` then timezone; returns (seconds, microseconds). -/
def parseSecFrac (l : List Char) : Option (Nat × Nat) :=
  match l with
  | ':' :: r =>
    match read2 r with
    | some (s, r2) =>
      if s ≥ 60 then none
      else
        match r2 with
        | '.' :: r3 =>
          let ds := r3.takeWhile Char.isDigit
          if ds.isEmpty || ds.length > 6 then none
          else
            let us := (ds.foldl (fun a c => a * 10 + (c.toNat - 48)) 0) *
              (10 ^ (6 - ds.length))
            (parseTz (r3.dropWhile Char.isDigit)).map (fun _ => (s, us))
        | r2' => (parseTz r2').map (fun _ => (s, 0))
    | none => none
  | r => (parseTz r).map (fun _ => (0, 0))

def parseTS (l : List Char) : Option Nat :=
  match read4 l with
  | none => none
  | some (y, l1) =>
    match l1 with
    | '-' :: l2 =>
      match read2 l2 with
      | none => none
      | some (mo, l3) =>
        match l3 with
        | '-' :: l4 =>
          match read2 l4 with
          | none => none
          | some (d, l5) =>
            if mo < 1 || mo > 12 || d < 1 || d > daysInMonth y mo then none
            else
              match l5 with
              | [] => some (dtCode y mo d 0 0 0 0)
              | sep :: l6 =>
                if sep == 'T' || sep == ' ' then
                  match read2 l6 with
                  | none => none
                  | some (h, l7) =>
                    match l7 with
                    | ':' :: l8 =>
                      match read2 l8 with
                      | none => none
                      | some (mi, l9) =>
                        if h ≥ 24 || mi ≥ 60 then none
                        else
                          (parseSecFrac l9).map
                            (fun p => dtCode y mo d h mi p.1 p.2)
                    | _ => none
                else none
        | _ => none
    | _ => none

/-- `str.replace('Z', '+00:00')`: every `Z` is replaced. -/
def replaceZ (l : List Char) : List Char :=
  l.foldr (fun c acc => (if c == 'Z' then lc ("+00:00") else [c]) ++ acc) []

theorem parseTS_spot :
    parseTS (replaceZ (lc ("2024-01-01T00:00:00Z"))) = some (dtCode 2024 1 1 0 0 0 0) := by
  decide

/-! ## The saved-session indexer (`get_saved_sessions`, src lines 127-183)

A transcript store is a list of project directories (`PDir`), each with a
raw directory name and its directory entries; entries that are not
directories are not represented (the source skips them).  Per file the
translation follows the source statement by statement, distinguishing
three outcomes: `ok` (a session dict is appended), `skip` (one of the
caught exceptions `json.JSONDecodeError`, `KeyError`, `ValueError`, or the
blank-first-line `continue`), and `crash` (an `AttributeError`/`TypeError`
raised on a non-object record or non-string timestamp, which the source
does not catch, aborting the whole scan).  `file_path` is modelled
relative to the projects root (the absolute prefix depends on the runtime
home directory and no claim inspects it). -/

structure Session where
  session_id : List Char
  cwd : JVal
  created : Nat
  last_activity : Nat
  summary : List Char
  file_path : List Char

inductive ExtractR where
  | crash
  | skip
  | ok (s : Session)

structure SFile where
  name : List Char
  content : List Char

structure PDir where
  name : List Char
  files : List SFile

/-- `project_dir.glob("*.jsonl")` membership test. -/
def isJsonlName (n : List Char) : Bool := (lc (".jsonl")).isSuffixOf n

/-- `Path(name).stem` for a name matching `*.jsonl`: drop the `.jsonl`
suffix, except that the bare name `.jsonl` has no suffix in pathlib and is
its own stem. -/
def stemOf (n : List Char) : List Char :=
  if n.length ≤ 6 then n else n.take (n.length - 6)

/-- Lines 139-141: decode the project path from the directory name
(`name.replace("-", "/")`, then ensure a leading slash). -/
def decodeProjectPath (name : List Char) : List Char :=
  let p := name.map (fun c => if c == '-' then '/' else c)
  if p.head? = some '/' then p else '/' :: p

/-- Line 166: `content[:50] + "..." if len(content) > 50 else content`. -/
def truncSummary (s : List Char) : List Char :=
  if s.length > 50 then s.take 50 ++ lc ("...") else s

/-- Lines 168-178: extract both timestamps and build the session dict.
`first_entry['timestamp']` raises a caught `KeyError` when the key is
missing, but `.replace` on a non-string value and subscripting a
non-object last entry raise uncaught errors. -/
def tsStage (fo : List (List Char × JVal)) (le : JVal)
    (dirName fname projectPath summary : List Char) : ExtractR :=
  match jget fo (lc ("timestamp")) with
  | none => ExtractR.skip
  | some (JVal.jstr ts1) =>
    match parseTS (replaceZ ts1) with
    | none => ExtractR.skip
    | some t1 =>
      match le with
      | JVal.jobj lo =>
        match jget lo (lc ("timestamp")) with
        | none => ExtractR.skip
        | some (JVal.jstr ts2) =>
          match parseTS (replaceZ ts2) with
          | none => ExtractR.skip
          | some t2 =>
            ExtractR.ok
              { session_id := stemOf fname
                cwd := (jget fo (lc ("cwd"))).getD (JVal.jstr projectPath)
                created := t1
                last_activity := t2
                summary := summary
                file_path := dirName ++ '/' :: fname }
        | some _ => ExtractR.crash
      | _ => ExtractR.crash
  | some _ => ExtractR.crash

/-- Lines 146-180: per-file body of the scan loop. -/
def extractSession (dirName : List Char) (f : SFile) : ExtractR :=
  let projectPath := decodeProjectPath dirName
  let fl := strip (firstLine f.content)
  if fl.isEmpty then ExtractR.skip
  else
    match jsonParse fl with
    | none => ExtractR.skip
    | some fe =>
      match jsonParse (tailRead 4096 f.content) with
      | none => ExtractR.skip
      | some le =>
        match fe with
        | JVal.jobj fo =>
          let isUser : Bool :=
            match jget fo (lc ("type")) with
            | some (JVal.jstr t) => t == lc ("user")
            | _ => false
          if isUser then
            match (jget fo (lc ("message"))).getD (JVal.jobj []) with
            | JVal.jobj mo =>
              let summary : List Char :=
                match (jget mo (lc ("content"))).getD (JVal.jstr []) with
                | JVal.jstr s => truncSummary s
                | _ => []
              tsStage fo le dirName f.name projectPath summary
            | _ => ExtractR.crash
          else tsStage fo le dirName f.name projectPath []
        | _ => ExtractR.crash

/-- Collect the per-file outcomes in scan order: a `crash` propagates as
the uncaught exception (discarding everything), a `skip` is the `continue`
statement, an `ok` appends. -/
def collectR : List ExtractR → Except Unit (List Session)
  | [] => Except.ok []
  | ExtractR.crash :: _ => Except.error ()
  | ExtractR.skip :: t => collectR t
  | ExtractR.ok s :: t => (collectR t).map (fun l => s :: l)

/-- Stable insertion model of Python `list.sort`: `x` is placed after an
already-placed `y` exactly when `after x y`. -/
def insertStable {α : Type} (after : α → α → Bool) (x : α) : List α → List α
  | [] => [x]
  | y :: ys => if after x y then y :: insertStable after x ys else x :: y :: ys

def sortStable {α : Type} (after : α → α → Bool) (l : List α) : List α :=
  l.foldl (fun acc x => insertStable after x acc) []

/-- Line 182: `sessions.sort(key=lambda x: x['last_activity'],
reverse=True)` — stable descending by key, so a later element is placed
after an earlier one whenever its key is `≤`. -/
def sortSessions (l : List Session) : List Session :=
  sortStable (fun a b => Nat.ble a.last_activity b.last_activity) l

/-- Lines 127-183: the whole indexer over a modelled store. -/
def get_saved_sessions (dirs : List PDir) : Except Unit (List Session) :=
  (collectR (dirs.flatMap
    (fun d => (d.files.filter (fun f => isJsonlName f.name)).map
      (extractSession d.name)))).map sortSessions

/-! ## Lemmas about the bounded tail read (claim C4)

Two extracted lines produce the same parsed record whenever they agree up
to surrounding whitespace, so record equality is compared below through
`strip`. -/

theorem drop_append_le {α : Type} (l₁ l₂ : List α) (k : Nat) (h : k ≤ l₁.length) :
    (l₁ ++ l₂).drop k = l₁.drop k ++ l₂ := by
  induction l₁ generalizing k with
  | nil =>
    have : k = 0 := Nat.le_zero.mp h
    simp [this]
  | cons x t ih =>
    cases k with
    | zero => simp
    | succ n =>
      simpa using ih n (Nat.succ_le_succ_iff.mp h)

theorem mem_of_mem_dropWhile {α : Type} {p : α → Bool} {x : α} {l : List α}
    (h : x ∈ l.dropWhile p) : x ∈ l :=
  (List.dropWhile_sublist p).mem h

theorem head?_dropWhile_false {α : Type} {p : α → Bool} {l : List α} {c : α}
    (h : (l.dropWhile p).head? = some c) : p c = false := by
  have h2 := List.head?_dropWhile_not p l
  rw [h] at h2
  exact h2

theorem dropWhile_idem {α : Type} (p : α → Bool) (l : List α) :
    (l.dropWhile p).dropWhile p = l.dropWhile p := by
  cases h : l.dropWhile p with
  | nil => rfl
  | cons c t =>
    have hc : p c = false := head?_dropWhile_false (by rw [h]; rfl)
    rw [List.dropWhile_cons_of_neg (by simp [hc])]

theorem dropWhile_ne_nil_of_ex {α : Type} {p : α → Bool} {l : List α}
    (h : ∃ x ∈ l, p x = false) : l.dropWhile p ≠ [] := by
  obtain ⟨x, hm, hx⟩ := h
  induction l with
  | nil => cases hm
  | cons y t ih =>
    rw [List.dropWhile_cons]
    split
    · rcases List.mem_cons.mp hm with rfl | hm2
      · simp_all
      · exact ih hm2
    · simp

theorem mem_stripL {c : Char} {z : List Char} (h : c ∈ stripL z) : c ∈ z :=
  mem_of_mem_dropWhile h

theorem mem_stripR {c : Char} {z : List Char} (h : c ∈ stripR z) : c ∈ z := by
  unfold stripR at h
  rw [List.mem_reverse] at h
  exact List.mem_reverse.mp (mem_of_mem_dropWhile h)

theorem stripR_getLast?_false {z : List Char} {c : Char}
    (h : (stripR z).getLast? = some c) : isSpaceC c = false := by
  unfold stripR at h
  rw [List.getLast?_reverse] at h
  exact head?_dropWhile_false h

theorem stripR_eq_self {z : List Char}
    (h : ∀ c, z.getLast? = some c → isSpaceC c = false) : stripR z = z := by
  unfold stripR
  suffices hs : z.reverse.dropWhile isSpaceC = z.reverse by rw [hs, List.reverse_reverse]
  cases hzr : z.reverse with
  | nil => rfl
  | cons c t =>
    have hgl : z.getLast? = some c := by
      rw [← List.head?_reverse, hzr]; rfl
    rw [List.dropWhile_cons_of_neg (by simp [h c hgl])]

theorem stripR_idem (z : List Char) : stripR (stripR z) = stripR z :=
  stripR_eq_self (fun _ hc => stripR_getLast?_false hc)

theorem stripL_idem (z : List Char) : stripL (stripL z) = stripL z :=
  dropWhile_idem isSpaceC z

theorem stripR_stripL_stripR (z : List Char) :
    stripR (stripL (stripR z)) = stripL (stripR z) := by
  apply stripR_eq_self
  intro c hc
  have hne : stripL (stripR z) ≠ [] := by
    intro hnil
    rw [hnil] at hc
    cases hc
  have hsplit := List.takeWhile_append_dropWhile isSpaceC (stripR z)
  have hgl : (stripR z).getLast? = some c := by
    rw [← hsplit, List.getLast?_append]
    unfold stripL at hc
    rw [hc]
    rfl
  exact stripR_getLast?_false hgl

theorem strip_strip (b : List Char) : strip (strip b) = strip b := by
  unfold strip
  rw [stripR_stripL_stripR, stripL_idem]

theorem stripR_ne_nil_of_ex {b : List Char} (h : ∃ c ∈ b, isSpaceC c = false) :
    stripR b ≠ [] := by
  unfold stripR
  intro hnil
  obtain ⟨c, hm, hc⟩ := h
  have := @dropWhile_ne_nil_of_ex Char isSpaceC b.reverse
    ⟨c, List.mem_reverse.mpr hm, hc⟩
  rw [List.reverse_eq_nil_iff] at hnil
  exact this hnil

theorem lastSeg_eq_self {l : List Char} (h : '\n' ∉ l) : lastSeg l = l := by
  unfold lastSeg
  have hall : ∀ c ∈ l.reverse, (!(c == '\n')) = true := by
    intro c hc
    have hcl : c ∈ l := List.mem_reverse.mp hc
    simp only [Bool.not_eq_true', beq_eq_false_iff_ne]
    intro heq
    exact h (heq ▸ hcl)
  have := @List.takeWhile_append_of_pos Char (fun c => !(c == '\n')) l.reverse [] hall
  simp only [List.append_nil, List.takeWhile_nil] at this
  rw [this, List.reverse_reverse]

theorem lastSeg_append_nl {x z : List Char} (hz : '\n' ∉ z) :
    lastSeg (x ++ '\n' :: z) = z := by
  unfold lastSeg
  have hall : ∀ c ∈ z.reverse, (!(c == '\n')) = true := by
    intro c hc
    have hcl : c ∈ z := List.mem_reverse.mp hc
    simp only [Bool.not_eq_true', beq_eq_false_iff_ne]
    intro heq
    exact hz (heq ▸ hcl)
  rw [List.reverse_append, List.reverse_cons, List.append_assoc,
    List.takeWhile_append_of_pos hall,
    List.singleton_append, List.takeWhile_cons_of_neg (by simp)]
  simp

theorem stripR_concat_ex {x b : List Char} (hsp : ∃ c ∈ b, isSpaceC c = false) :
    stripR (x ++ b ++ ['\n']) = x ++ stripR b := by
  unfold stripR
  have hne : b.reverse.dropWhile isSpaceC ≠ [] := by
    obtain ⟨c, hm, hc⟩ := hsp
    exact dropWhile_ne_nil_of_ex ⟨c, List.mem_reverse.mpr hm, hc⟩
  rw [List.append_assoc, List.reverse_append, List.reverse_append]
  simp only [List.reverse_cons, List.reverse_nil, List.nil_append, List.singleton_append]
  have h0 : isSpaceC '\n' = true := by decide
  rw [List.cons_append, List.dropWhile_cons, if_pos h0, List.dropWhile_append]
  rw [if_neg (by simpa [List.isEmpty_iff] using hne)]
  rw [List.reverse_append, List.reverse_reverse]

theorem strip_lastSeg_core (a' b : List Char)
    (ha' : a' = [] ∨ ∃ a₁, a' = a₁ ++ ['\n'])
    (hb : '\n' ∉ b) (hsp : ∃ c ∈ b, isSpaceC c = false) :
    strip (lastSeg (strip (a' ++ b ++ ['\n']))) = strip b := by
  have h1 : strip (a' ++ b ++ ['\n']) = stripL (a' ++ stripR b) := by
    unfold strip
    rw [stripR_concat_ex hsp]
  rw [h1]
  have hBnl : '\n' ∉ stripR b := fun h => hb (mem_stripR h)
  rcases ha' with rfl | ⟨a₁, rfl⟩
  · simp only [List.nil_append]
    rw [lastSeg_eq_self (fun h => hBnl (mem_stripL h))]
    exact strip_strip b
  · rw [List.append_assoc, List.singleton_append]
    by_cases hex : ∃ c ∈ a₁, isSpaceC c = false
    · unfold stripL
      rw [List.dropWhile_append,
        if_neg (by simpa [List.isEmpty_iff] using dropWhile_ne_nil_of_ex hex)]
      rw [lastSeg_append_nl hBnl]
      unfold strip
      rw [stripR_idem]
    · have hall : ∀ c ∈ a₁, isSpaceC c = true := by
        intro c hc
        by_contra hcc
        exact hex ⟨c, hc, by simpa using hcc⟩
      have h0 : isSpaceC '\n' = true := by decide
      unfold stripL
      rw [List.dropWhile_append_of_pos hall, List.dropWhile_cons, if_pos h0]
      rw [lastSeg_eq_self (fun h => hBnl (mem_of_mem_dropWhile h))]
      exact strip_strip b

theorem takeRight_shape (a b : List Char)
    (ha : a = [] ∨ ∃ a₀, a = a₀ ++ ['\n'])
    (hlen : b.length + 1 ≤ 4096) :
    ∃ a', (a' = [] ∨ ∃ a₁, a' = a₁ ++ ['\n']) ∧
      takeRight (min 4096 (a ++ b ++ ['\n']).length) (a ++ b ++ ['\n']) =
        a' ++ b ++ ['\n'] := by
  have hn : (a ++ b ++ ['\n']).length = a.length + (b.length + 1) := by
    simp [Nat.add_assoc]
  unfold takeRight
  rcases Nat.le_total (a ++ b ++ ['\n']).length 4096 with hle | hge
  · rw [Nat.min_eq_right hle, Nat.sub_self, List.drop_zero]
    exact ⟨a, ha, rfl⟩
  · rw [Nat.min_eq_left hge]
    obtain ⟨k, hkdef⟩ : ∃ k, (a ++ b ++ ['\n']).length - 4096 = k := ⟨_, rfl⟩
    have hk : k ≤ a.length := by omega
    rw [hkdef]
    have hw : (a ++ b ++ ['\n']).drop k = a.drop k ++ b ++ ['\n'] := by
      rw [List.append_assoc, drop_append_le _ _ _ hk, List.append_assoc]
    refine ⟨a.drop k, ?_, hw⟩
    rcases ha with rfl | ⟨a₀, rfl⟩
    · left
      simp
    · rcases Nat.lt_or_ge k (a₀.length + 1) with h1 | h1
      · right
        exact ⟨a₀.drop k, by rw [drop_append_le _ _ _ (by omega)]⟩
      · left
        apply List.drop_eq_nil_of_le
        simp only [List.length_append, List.length_cons, List.length_nil]
        omega

/-! ## The live-process scanner (`get_claude_sessions`, src lines 104-124)

A scanned OS process carries the attributes `psutil` reports.  `cmdline`
is `none` when reading it raises one of the caught psutil exceptions
(vanished / inaccessible process), in which case the source `continue`s. -/

structure Proc where
  pid : Nat
  cmdline : Option (List (List Char))
  cwd : Option (List Char)
  terminal : Option (List Char)
  create_time : Nat
  status : List Char

structure LiveSession where
  pid : Nat
  cwd : Option (List Char)
  terminal : List Char
  create_time : Nat
  status : List Char

/-- `info['terminal'] or 'N/A'` (both `None` and an empty string are
falsy). -/
def terminalOr (t : Option (List Char)) : List Char :=
  match t with
  | some s => if s.isEmpty then lc ("N/A") else s
  | none => lc ("N/A")

def liveOf (p : Proc) : LiveSession :=
  { pid := p.pid
    cwd := p.cwd
    terminal := terminalOr p.terminal
    create_time := p.create_time
    status := p.status }

/-- `cmdline and cmdline[0] == 'claude'`. -/
def isClaudeProc (p : Proc) : Bool :=
  match p.cmdline with
  | some (c0 :: _) => c0 == lc ("claude")
  | _ => false

/-- Lines 104-124: filter to claude CLI processes, build the session
dicts, sort by pid ascending (`sessions.sort(key=lambda x: x['pid'])`,
stable). -/
def get_claude_sessions (procs : List Proc) : List LiveSession :=
  sortStable (fun a b => Nat.ble b.pid a.pid)
    ((procs.filter isClaudeProc).map liveOf)

/-- Modelled from the spec: the derived "currently live" flag of §4.3 /
claim C2 — true iff some live process's command line contains a resume
flag (`--resume` or `-r`) followed by exactly the session's identifier as
the next token.  No corresponding computation exists in the source. -/
def resumeScan : List (List Char) → List Char → Bool
  | a :: b :: t, sid =>
    ((a == lc ("--resume") || a == lc ("-r")) && b == sid) ||
      resumeScan (b :: t) sid
  | _, _ => false

/-- Modelled from the spec: a saved session is "currently live" iff some
process's command line resumes its identifier. -/
def isLiveSpec (procs : List Proc) (sid : List Char) : Bool :=
  procs.any (fun p =>
    match p.cmdline with
    | some cl => resumeScan cl sid
    | none => false)

/-! ## The TUI refresh loop (`SessionsApp.refresh_sessions`, src 261-282)

The table shows `sessions[:50]`, keyed by session identifier.  The source
remembers `table.cursor_row` (a positional index; `0` when the old table
was empty), clears the table, re-adds the rows of the new snapshot and
restores `min(cursor_row, row_count - 1)` when the new table is
nonempty. -/

def displayedIds (l : List Session) : List (List Char) :=
  (l.take 50).map (fun s => s.session_id)

def refreshCursor (cursor : Nat) (s1 s2 : List Session) : Nat :=
  let old := if 0 < (displayedIds s1).length then cursor else 0
  if 0 < (displayedIds s2).length then min old ((displayedIds s2).length - 1) else 0

/-! ## Path decoding and the attach command -/

/-- Lines 139-141: decode the project path from the directory name
(`name.replace("-", "/")`, then ensure a leading slash). -/
def decodeProjPath (name : List Char) : List Char :=
  let p := name.map (fun c => if c == '-' then '/' else c)
  if p.head? = some '/' then p else '/' :: p

/-- Modelled from the spec: the directory-name encoding of a project path
substitutes the path separator `/` by the fixed character `-`; the encoder
itself lives in the external application that writes the store, not in
this repository. -/
def encodeProjPath (path : List Char) : List Char :=
  path.map (fun c => if c == '/' then '-' else c)

/-- Python `str.isdigit` (ASCII scope): nonempty and all digits. -/
def isDigits (l : List Char) : Bool := !l.isEmpty && l.all Char.isDigit

def toNatD (l : List Char) : Nat := l.foldl (fun a c => a * 10 + (c.toNat - 48)) 0

/-- Observable outcome of `cmd_attach` (src lines 438-499): which message
is printed and whether `attach_to_session` (chdir + exec) is reached.
Only `attach` replaces the process image; every other outcome returns
after printing. -/
inductive AttachOutcome where
  | noSessions
  | invalidNumber
  | notFound (sid : List Char)
  | invalidSelection
  | invalidNumberPrompt (bound : Nat)
  | attach (s : Session)

/-- Lines 443-468: `cmd_attach` with a (truthy) session argument. -/
def cmdAttachArg (sessions : List Session) (arg : List Char) : AttachOutcome :=
  if sessions.isEmpty then AttachOutcome.noSessions
  else
    match
      (if isDigits arg then
        if h : 1 ≤ toNatD arg ∧ toNatD arg ≤ sessions.length then
          some ((sessions.get ⟨toNatD arg - 1, by omega⟩).session_id)
        else none
      else some arg) with
    | none => AttachOutcome.invalidNumber
    | some sid =>
      match sessions.find? (fun s => sid.isPrefixOf s.session_id) with
      | some s => AttachOutcome.attach s
      | none => AttachOutcome.notFound sid

/-- Lines 478-496: the non-interactive fallback prompt of `cmd_attach`
with no session argument (the table printed above the prompt shows
`sessions[:20]`; the rejection message quotes `min(20, len(sessions))` as
the upper bound, but the accepted range is `1..len(sessions)`). -/
def cmdAttachPrompt (sessions : List Session) (choice : List Char) : AttachOutcome :=
  if sessions.isEmpty then AttachOutcome.noSessions
  else if !(isDigits choice) then AttachOutcome.invalidSelection
  else if h : 1 ≤ toNatD choice ∧ toNatD choice ≤ sessions.length then
    AttachOutcome.attach (sessions.get ⟨toNatD choice - 1, by omega⟩)
  else AttachOutcome.invalidNumberPrompt (min 20 sessions.length)

/-! ## Properties of the stable sort and of result collection -/

theorem mem_insertStable {α : Type} {after : α → α → Bool} {x y : α} {l : List α}
    (h : y ∈ insertStable after x l) : y = x ∨ y ∈ l := by
  induction l with
  | nil =>
    rcases List.mem_singleton.mp h with rfl
    exact Or.inl rfl
  | cons z t ih =>
    rw [insertStable] at h
    split at h
    · rcases List.mem_cons.mp h with rfl | h2
      · exact Or.inr (List.mem_cons_self _ _)
      · rcases ih h2 with rfl | h3
        · exact Or.inl rfl
        · exact Or.inr (List.mem_cons_of_mem _ h3)
    · rcases List.mem_cons.mp h with rfl | h2
      · exact Or.inl rfl
      · exact Or.inr h2

theorem insertStable_perm {α : Type} (after : α → α → Bool) (x : α) (l : List α) :
    List.Perm (insertStable after x l) (x :: l) := by
  induction l with
  | nil => exact List.Perm.refl _
  | cons z t ih =>
    rw [insertStable]
    split
    · exact ((ih.cons z).trans (List.Perm.swap x z t)).symm.symm
    · exact List.Perm.refl _

theorem insertStable_pairwise {α : Type} {after : α → α → Bool}
    (htot : ∀ a b, after a b = false → after b a = true)
    (htrans : ∀ a b c, after b a = true → after c b = true → after c a = true)
    (x : α) (l : List α) (h : List.Pairwise (fun a b => after b a = true) l) :
    List.Pairwise (fun a b => after b a = true) (insertStable after x l) := by
  induction l with
  | nil => exact List.pairwise_singleton _ _
  | cons z t ih =>
    rw [List.pairwise_cons] at h
    rw [insertStable]
    split
    · rename_i hxz
      rw [List.pairwise_cons]
      refine ⟨?_, ih h.2⟩
      intro y hy
      rcases mem_insertStable hy with rfl | h2
      · exact hxz
      · exact h.1 y h2
    · rename_i hxz
      rw [List.pairwise_cons]
      have hzx : after z x = true := htot _ _ (Bool.not_eq_true _ ▸ hxz)
      refine ⟨?_, List.Pairwise.cons h.1 h.2⟩
      intro y hy
      rcases List.mem_cons.mp hy with rfl | h2
      · exact hzx
      · exact htrans _ _ _ hzx (h.1 y h2)

theorem sortStable_pairwise {α : Type} {after : α → α → Bool}
    (htot : ∀ a b, after a b = false → after b a = true)
    (htrans : ∀ a b c, after b a = true → after c b = true → after c a = true)
    (l : List α) :
    List.Pairwise (fun a b => after b a = true) (sortStable after l) := by
  suffices hgen : ∀ acc, List.Pairwise (fun a b => after b a = true) acc →
      List.Pairwise (fun a b => after b a = true)
        (l.foldl (fun acc x => insertStable after x acc) acc) by
    exact hgen [] (List.Pairwise.nil)
  induction l with
  | nil => intro acc hacc; exact hacc
  | cons x t ih =>
    intro acc hacc
    exact ih _ (insertStable_pairwise htot htrans x acc hacc)

theorem sortStable_perm {α : Type} (after : α → α → Bool) (l : List α) :
    List.Perm (sortStable after l) l := by
  suffices hgen : ∀ acc, List.Perm (l.foldl (fun acc x => insertStable after x acc) acc)
      (acc ++ l) by
    simpa using hgen []
  induction l with
  | nil => intro acc; simp
  | cons x t ih =>
    intro acc
    have h1 : List.Perm (t.foldl (fun acc x => insertStable after x acc)
        (insertStable after x acc)) (insertStable after x acc ++ t) := ih _
    have h2 : List.Perm (insertStable after x acc ++ t) ((x :: acc) ++ t) :=
      (insertStable_perm after x acc).append_right t
    have h3 : List.Perm ((x :: acc) ++ t) (acc ++ x :: t) := List.perm_middle.symm
    exact (h1.trans h2).trans h3

theorem collectR_mem {rs : List ExtractR} {l : List Session} {s : Session}
    (h : collectR rs = Except.ok l) (hs : s ∈ l) : ExtractR.ok s ∈ rs := by
  induction rs generalizing l with
  | nil =>
    rw [collectR] at h
    cases h
    cases hs
  | cons r t ih =>
    cases r with
    | crash => rw [collectR] at h; cases h
    | skip =>
      rw [collectR] at h
      exact List.mem_cons_of_mem _ (ih h hs)
    | ok x =>
      rw [collectR] at h
      cases ht : collectR t with
      | error e => rw [ht] at h; cases h
      | ok l' =>
        rw [ht] at h
        simp only [Except.map] at h
        cases h
        rcases List.mem_cons.mp hs with rfl | h2
        · exact List.mem_cons_self _ _
        · exact List.mem_cons_of_mem _ (ih ht h2)

theorem collectR_append_skip (X Y : List ExtractR) :
    collectR (X ++ ExtractR.skip :: Y) = collectR (X ++ Y) := by
  induction X with
  | nil => rfl
  | cons r t ih =>
    cases r with
    | crash => rfl
    | skip => simpa [collectR] using ih
    | ok x =>
      simp only [List.cons_append, collectR]
      exact congrArg _ ih

/-! ## Claim C8: path encoding round-trip -/

theorem roundtrip_map (p : List Char) (hnd : '-' ∉ p) :
    (encodeProjPath p).map (fun c => if c == '-' then '/' else c) = p := by
  unfold encodeProjPath
  rw [List.map_map]
  have hpt : ∀ c ∈ p,
      (((fun c => if c == '-' then '/' else c) ∘ fun c => if c == '/' then '-' else c) c) = c := by
    intro c hc
    by_cases h1 : c = '/'
    · simp [Function.comp, h1]
    · have h2 : c ≠ '-' := fun he => hnd (he ▸ hc)
      simp [Function.comp, h1, h2]
  rw [List.map_congr_left hpt]
  exact List.map_id' p

/-- C8: directory-name path encoding (spec-modelled, separators replaced
by `-`) and the indexer's decoding (lines 139-141) are mutually inverse on
absolute paths that contain no occurrence of the substitution character:
decoding the encoded name yields the original path. -/
theorem C8_thm (p : List Char) (habs : p.head? = some '/') (hnd : '-' ∉ p) :
    decodeProjPath (encodeProjPath p) = p := by
  simp only [decodeProjPath]
  rw [roundtrip_map p hnd, if_pos habs]

/-- C8 witness: the round-trip evaluated at the concrete path `/a/b`. -/
theorem C8_wit : (lc ("/a/b")).head? = some '/' ∧ '-' ∉ lc ("/a/b") ∧
    decodeProjPath (encodeProjPath (lc ("/a/b"))) = lc ("/a/b") :=
  ⟨by decide, by decide, C8_thm _ (by decide) (by decide)⟩

/-! ## Claim C9: out-of-range numeric attach argument -/

/-- C9: with a nonempty saved-session catalog, a numeric session argument
whose value is outside `1..len(sessions)` makes `cmd_attach` print the
invalid-session-number message and return; the `invalidNumber` outcome
reaches neither the prefix search nor `attach_to_session` (no chdir, no
exec). -/
theorem C9_thm (sessions : List Session) (arg : List Char)
    (hne : sessions ≠ []) (hdig : isDigits arg = true)
    (hout : ¬(1 ≤ toNatD arg ∧ toNatD arg ≤ sessions.length)) :
    cmdAttachArg sessions arg = AttachOutcome.invalidNumber := by
  unfold cmdAttachArg
  rw [if_neg (by simpa [List.isEmpty_iff] using hne), if_pos hdig, dif_neg hout]

def sampleSession : Session :=
  { session_id := lc ("abc")
    cwd := JVal.jstr (lc ("/tmp"))
    created := 0
    last_activity := 0
    summary := []
    file_path := lc ("p/f.jsonl") }

/-- C9 witness: `attach 99` with a single saved session. -/
theorem C9_wit : [sampleSession] ≠ [] ∧ isDigits (lc ("99")) = true ∧
    ¬(1 ≤ toNatD (lc ("99")) ∧ toNatD (lc ("99")) ≤ [sampleSession].length) ∧
    cmdAttachArg [sampleSession] (lc ("99")) = AttachOutcome.invalidNumber :=
  ⟨List.cons_ne_nil _ _, by decide, by decide,
    C9_thm _ _ (List.cons_ne_nil _ _) (by decide) (by decide)⟩

/-! ## Claim C10: the non-interactive attach prompt -/

/-- C10: in the fallback prompt of `cmd_attach` (no session argument,
nonempty catalog), an entered number is rejected iff it is non-numeric or
outside `1..len(sessions)`; every numeric `n` with `1 ≤ n ≤ len(sessions)`
— in particular `20 < n ≤ len(sessions)` even though only the first 20
sessions are displayed — attaches to `sessions[n-1]`, the n-th most
recent; and the numeric rejection message quotes `min(20, len(sessions))`
as the upper bound. -/
theorem C10_thm (sessions : List Session) (choice : List Char) (hne : sessions ≠ []) :
    ((∃ s, cmdAttachPrompt sessions choice = AttachOutcome.attach s) ↔
      (isDigits choice = true ∧ 1 ≤ toNatD choice ∧ toNatD choice ≤ sessions.length)) ∧
    (∀ (_ : isDigits choice = true) (h1 : 1 ≤ toNatD choice)
        (h2 : toNatD choice ≤ sessions.length),
      cmdAttachPrompt sessions choice =
        AttachOutcome.attach (sessions.get ⟨toNatD choice - 1, by omega⟩)) ∧
    (isDigits choice = false →
      cmdAttachPrompt sessions choice = AttachOutcome.invalidSelection) ∧
    (isDigits choice = true → ¬(1 ≤ toNatD choice ∧ toNatD choice ≤ sessions.length) →
      cmdAttachPrompt sessions choice =
        AttachOutcome.invalidNumberPrompt (min 20 sessions.length)) := by
  have hie : ¬(sessions.isEmpty = true) := by simpa [List.isEmpty_iff] using hne
  by_cases hd : isDigits choice = true
  · by_cases hr : 1 ≤ toNatD choice ∧ toNatD choice ≤ sessions.length
    · have heq : cmdAttachPrompt sessions choice =
          AttachOutcome.attach (sessions.get ⟨toNatD choice - 1, by omega⟩) := by
        unfold cmdAttachPrompt
        rw [if_neg hie, if_neg (by simp [hd]), dif_pos hr]
      refine ⟨⟨fun _ => ⟨hd, hr.1, hr.2⟩, fun _ => ⟨_, heq⟩⟩, ?_, ?_, ?_⟩
      · intro _ _ _
        exact heq
      · intro hf
        rw [hd] at hf
        cases hf
      · intro _ hnr
        exact absurd hr hnr
    · have heq : cmdAttachPrompt sessions choice =
          AttachOutcome.invalidNumberPrompt (min 20 sessions.length) := by
        unfold cmdAttachPrompt
        rw [if_neg hie, if_neg (by simp [hd]), dif_neg hr]
      refine ⟨⟨fun hex => ?_, fun hall => absurd ⟨hall.2.1, hall.2.2⟩ hr⟩, ?_, ?_, ?_⟩
      · obtain ⟨s, hs⟩ := hex
        rw [heq] at hs
        cases hs
      · intro _ h1 h2
        exact absurd ⟨h1, h2⟩ hr
      · intro hf
        rw [hd] at hf
        cases hf
      · intro _ _
        exact heq
  · have hdf : isDigits choice = false := by
      cases h : isDigits choice
      · rfl
      · exact absurd h hd
    have heq : cmdAttachPrompt sessions choice = AttachOutcome.invalidSelection := by
      unfold cmdAttachPrompt
      rw [if_neg hie, if_pos (by simp [hdf])]
    refine ⟨⟨fun hex => ?_, fun hall => absurd hall.1 hd⟩, ?_, ?_, ?_⟩
    · obtain ⟨s, hs⟩ := hex
      rw [heq] at hs
      cases hs
    · intro h
      exact absurd h hd
    · intro _
      exact heq
    · intro h
      exact absurd h hd

/-- C10 witness: 25 saved sessions, entered choice `23` — beyond the 20
displayed rows but within the catalog — is accepted and attaches to the
23rd most recent session. -/
theorem C10_wit :
    cmdAttachPrompt (List.replicate 25 sampleSession) (lc ("23")) =
      AttachOutcome.attach ((List.replicate 25 sampleSession).get
        ⟨toNatD (lc ("23")) - 1, by simp [toNatD, lc]⟩) :=
  (C10_thm (List.replicate 25 sampleSession) (lc ("23"))
    (by simp)).2.1 (by decide) (by decide) (by simp [toNatD, lc])

/-! ## Claim C1: cursor behaviour across a snapshot refresh -/

def sessA : Session :=
  { session_id := lc ("aaa"), cwd := JVal.jstr [], created := 0,
    last_activity := 5, summary := [], file_path := [] }

def sessB : Session :=
  { session_id := lc ("bbb"), cwd := JVal.jstr [], created := 0,
    last_activity := 3, summary := [], file_path := [] }

/-- C1 counterexample: snapshot `[aaa, bbb]` with the cursor on `aaa` at
index 0 is replaced by `[bbb, aaa]`, where `aaa` is still present; the
refreshed cursor stays at index 0, which now designates `bbb`, so the
selection does not follow the identifier. -/
theorem C1_cex :
    (displayedIds [sessA, sessB])[0]? = some (lc ("aaa")) ∧
    lc ("aaa") ∈ displayedIds [sessB, sessA] ∧
    refreshCursor 0 [sessA, sessB] [sessB, sessA] = 0 ∧
    (displayedIds [sessB, sessA])[0]? = some (lc ("bbb")) ∧
    lc ("bbb") ≠ lc ("aaa") := by decide

/-- C1 amended: `refresh_sessions` restores the cursor purely positionally
— the old row index (0 if the old table was empty) clamped to the new row
count — regardless of where the previously selected identifier moved; the
restored cursor is always a valid row index. -/
theorem C1_thm (s1 s2 : List Session) (c : Nat)
    (h2 : 0 < (displayedIds s2).length) :
    refreshCursor c s1 s2 =
      min (if 0 < (displayedIds s1).length then c else 0)
        ((displayedIds s2).length - 1) ∧
    refreshCursor c s1 s2 < (displayedIds s2).length := by
  unfold refreshCursor
  rw [if_pos h2]
  refine ⟨rfl, ?_⟩
  have hmin := Nat.min_le_right
    (if 0 < (displayedIds s1).length then c else 0) ((displayedIds s2).length - 1)
  omega

/-- C1 witness: the amended rule evaluated on concrete snapshots. -/
theorem C1_wit : 0 < (displayedIds [sessB]).length ∧
    (refreshCursor 5 [sessA] [sessB] =
      min (if 0 < (displayedIds [sessA]).length then 5 else 0)
        ((displayedIds [sessB]).length - 1) ∧
    refreshCursor 5 [sessA] [sessB] < (displayedIds [sessB]).length) :=
  ⟨by decide, C1_thm [sessA] [sessB] 5 (by decide)⟩

/-! ## Claim C3: ordering of the saved-session list -/

theorem collectR_mem_rev {rs : List ExtractR} {l : List Session} {s : Session}
    (h : collectR rs = Except.ok l) (hs : ExtractR.ok s ∈ rs) : s ∈ l := by
  induction rs generalizing l with
  | nil => cases hs
  | cons r t ih =>
    cases r with
    | crash => rw [collectR] at h; cases h
    | skip =>
      rw [collectR] at h
      rcases List.mem_cons.mp hs with hh | h2
      · cases hh
      · exact ih h h2
    | ok x =>
      rw [collectR] at h
      cases ht : collectR t with
      | error e => rw [ht] at h; cases h
      | ok l' =>
        rw [ht] at h
        simp only [Except.map] at h
        cases h
        rcases List.mem_cons.mp hs with hh | h2
        · cases hh
          exact List.mem_cons_self _ _
        · exact List.mem_cons_of_mem _ (ih ht h2)

/-- C3 amended: the list returned by `get_saved_sessions` is sorted by
last-activity descending, and the sort only permutes the per-file
extraction results (Python `list.sort` is stable, so equal keys keep
scan-encounter order — they are NOT re-ordered lexicographically by
identifier). -/
theorem C3_thm (dirs : List PDir) (out : List Session)
    (h : get_saved_sessions dirs = Except.ok out) :
    List.Pairwise (fun a b => b.last_activity ≤ a.last_activity) out ∧
    ∀ s : Session, s ∈ out ↔
      ExtractR.ok s ∈ dirs.flatMap
        (fun d => (d.files.filter (fun f => isJsonlName f.name)).map
          (extractSession d.name)) := by
  unfold get_saved_sessions at h
  cases hcol : collectR (dirs.flatMap
      (fun d => (d.files.filter (fun f => isJsonlName f.name)).map
        (extractSession d.name))) with
  | error e => rw [hcol] at h; cases h
  | ok l =>
    rw [hcol] at h
    simp only [Except.map] at h
    cases h
    constructor
    · have hp := @sortStable_pairwise Session
        (fun a b : Session => Nat.ble a.last_activity b.last_activity)
        (fun a b hab => by
          have h1 : ¬(a.last_activity ≤ b.last_activity) :=
            Nat.not_le_of_not_ble_eq_true (by simp [hab])
          simp only [Nat.ble_eq]
          omega)
        (fun a b c h1 h2 => by
          simp only [Nat.ble_eq] at h1 h2 ⊢
          omega) l
      exact hp.imp (fun hab => Nat.le_of_ble_eq_true hab)
    · intro s
      unfold sortSessions
      rw [(sortStable_perm _ l).mem_iff]
      exact ⟨fun hs => collectR_mem hcol hs, fun hs => collectR_mem_rev hcol hs⟩

/-- Lexicographic strict order on identifiers, used to state that the
tie-break claimed by the spec does not hold. -/
def lexLtB : List Char → List Char → Bool
  | [], [] => false
  | [], _ :: _ => true
  | _ :: _, [] => false
  | a :: as, b :: bs => if a < b then true else if a = b then lexLtB as bs else false

def c3line : List Char := lc ("\x7b\"type\":\"x\",\"timestamp\":\"2024-03-01T12:00:00Z\"\x7d")

def c3t : Nat := dtCode 2024 3 1 12 0 0 0

def c3dirs : List PDir :=
  [⟨lc ("-p"), [⟨lc ("b.jsonl"), c3line ++ ['\n']⟩, ⟨lc ("a.jsonl"), c3line ++ ['\n']⟩]⟩]

set_option maxRecDepth 10000 in
/-- C3 counterexample: two transcripts with identical last-activity
timestamps, encountered in the order `b.jsonl`, `a.jsonl`; the indexer
returns them in encounter order `[b, a]` although `a` precedes `b`
lexicographically, so ties are not broken lexicographically by
identifier. -/
theorem C3_cex :
    ((get_saved_sessions c3dirs).map (fun l => l.map
      (fun s => (s.session_id, s.last_activity)))) =
      Except.ok [(lc ("b"), c3t), (lc ("a"), c3t)] ∧
    lexLtB (lc ("a")) (lc ("b")) = true :=
  ⟨by rfl, by decide⟩

def c3sessB : Session :=
  { session_id := lc ("b"), cwd := JVal.jstr (lc ("/p")), created := c3t,
    last_activity := c3t, summary := [], file_path := lc ("-p/b.jsonl") }

def c3sessA : Session :=
  { session_id := lc ("a"), cwd := JVal.jstr (lc ("/p")), created := c3t,
    last_activity := c3t, summary := [], file_path := lc ("-p/a.jsonl") }

set_option maxRecDepth 10000 in
/-- C3 witness: the amended ordering theorem applied to the concrete
two-file store. -/
theorem C3_wit :
    List.Pairwise (fun a b : Session => b.last_activity ≤ a.last_activity)
      [c3sessB, c3sessA] ∧
    ∀ s : Session, s ∈ [c3sessB, c3sessA] ↔
      ExtractR.ok s ∈ c3dirs.flatMap
        (fun d => (d.files.filter (fun f => isJsonlName f.name)).map
          (extractSession d.name)) :=
  C3_thm c3dirs [c3sessB, c3sessA] (by rfl)

/-! ## Claim C2: no "currently live" annotation exists -/

def c2dirs : List PDir := [⟨lc ("-q"), [⟨lc ("s1.jsonl"), c3line ++ ['\n']⟩]⟩]

def c2sess : Session :=
  { session_id := lc ("s1"), cwd := JVal.jstr (lc ("/q")), created := c3t,
    last_activity := c3t, summary := [], file_path := lc ("-q/s1.jsonl") }

def c2procsA : List Proc :=
  [{ pid := 1, cmdline := some [lc ("claude"), lc ("--resume"), lc ("s1")],
     cwd := none, terminal := none, create_time := 0, status := lc ("running") }]

def c2procsB : List Proc := []

set_option maxRecDepth 10000 in
/-- C2 counterexample: the saved-session records built by
`get_saved_sessions` carry no field that can realise the claimed
"currently live" flag — any annotation computed from a record in the
snapshot is a single boolean, while the spec's flag must differ between a
process list that resumes the session's identifier and one that does not,
for the very same snapshot (the source computes the saved-session snapshot
without ever consulting live processes). -/
theorem C2_cex : (∃ ann : Session → Bool,
    ∀ (procs : List Proc) (s : Session),
      s ∈ (get_saved_sessions c2dirs).toOption.getD [] →
      ann s = isLiveSpec procs s.session_id) ↔ False := by
  apply iff_false_intro
  rintro ⟨ann, h⟩
  have he : get_saved_sessions c2dirs = Except.ok [c2sess] := by rfl
  have hmem : c2sess ∈ (get_saved_sessions c2dirs).toOption.getD [] := by
    rw [he]
    exact List.mem_singleton.mpr rfl
  have hA := h c2procsA c2sess hmem
  have hB := h c2procsB c2sess hmem
  have hA2 : isLiveSpec c2procsA c2sess.session_id = true := by decide
  have hB2 : isLiveSpec c2procsB c2sess.session_id = false := by decide
  rw [hA2] at hA
  rw [hB2] at hB
  rw [hA] at hB
  cases hB

/-- C2 amended: the only liveness notion in the source is the live-process
list of `get_claude_sessions`: a `LiveSession` is produced exactly for the
processes whose first command-line token is `claude` — resume flags are
never inspected, and the saved-session catalog is computed independently
of processes, so no saved session carries a derived currently-live
flag. -/
theorem C2_thm (procs : List Proc) (s : LiveSession) :
    s ∈ get_claude_sessions procs ↔
      ∃ p ∈ procs, isClaudeProc p = true ∧ s = liveOf p := by
  unfold get_claude_sessions
  rw [(sortStable_perm _ _).mem_iff]
  simp only [List.mem_map, List.mem_filter]
  constructor
  · rintro ⟨p, ⟨hp, hcp⟩, rfl⟩
    exact ⟨p, hp, hcp, rfl⟩
  · rintro ⟨p, hp, hcp, rfl⟩
    exact ⟨p, ⟨hp, hcp⟩, rfl⟩

/-! ## Claim C4: bounded suffix read vs. whole-file read -/

/-- C4 counterexample: the file `'\x7b"x":1\x7d\n \n'` ends in a blank
line of 2 bytes (far below the window budget), yet the bounded suffix
read — whose `strip()` discards the trailing blank — extracts the record
`'\x7b"x":1\x7d'`, while reading the entire file line by line yields the
blank final line, which parses to no record at all. -/
theorem C4_cex :
    (lastLineOf (lc ("\x7b\"x\":1\x7d\n \n"))).length + 1 ≤ 4096 ∧
    strip (tailRead 4096 (lc ("\x7b\"x\":1\x7d\n \n"))) ≠
      strip (lastLineOf (lc ("\x7b\"x\":1\x7d\n \n"))) ∧
    (jsonParse (tailRead 4096 (lc ("\x7b\"x\":1\x7d\n \n")))).isSome = true ∧
    (jsonParse (lastLineOf (lc ("\x7b\"x\":1\x7d\n \n")))).isSome = false := by
  refine ⟨by decide, by decide, by decide, by decide⟩

/-- C4 amended: for every newline-terminated transcript whose last line
fits in the 4096-byte window (newline included) and contains at least one
non-whitespace character — i.e. it is record text, not a blank line — the
line extracted by the bounded suffix read agrees with the last line of the
whole file up to surrounding whitespace, and hence denotes the same
record. -/
theorem C4_thm (a b : List Char)
    (ha : a = [] ∨ ∃ a₀, a = a₀ ++ ['\n'])
    (hb : '\n' ∉ b) (hsp : ∃ c ∈ b, isSpaceC c = false)
    (hlen : b.length + 1 ≤ 4096) :
    lastLineOf (a ++ b ++ ['\n']) = b ∧
    strip (tailRead 4096 (a ++ b ++ ['\n'])) = strip b := by
  constructor
  · unfold lastLineOf
    have h1 : (a ++ b ++ ['\n']).getLast? = some '\n' := List.getLast?_concat _
    rw [if_pos h1, List.dropLast_concat]
    rcases ha with rfl | ⟨a₀, rfl⟩
    · simpa using lastSeg_eq_self hb
    · rw [List.append_assoc, List.singleton_append]
      exact lastSeg_append_nl hb
  · unfold tailRead
    obtain ⟨a', ha', hw⟩ := takeRight_shape a b ha hlen
    rw [hw]
    exact strip_lastSeg_core a' b ha' hb hsp

/-- C4 witness: the amended statement evaluated on the concrete file
`"x\nhi\n"`. -/
theorem C4_wit :
    (lc ("x\n") = [] ∨ ∃ a₀, lc ("x\n") = a₀ ++ ['\n']) ∧
    '\n' ∉ lc ("hi") ∧ (∃ c ∈ lc ("hi"), isSpaceC c = false) ∧
    (lc ("hi")).length + 1 ≤ 4096 ∧
    (lastLineOf (lc ("x\n") ++ lc ("hi") ++ ['\n']) = lc ("hi") ∧
      strip (tailRead 4096 (lc ("x\n") ++ lc ("hi") ++ ['\n'])) = strip (lc ("hi"))) :=
  ⟨Or.inr ⟨lc ("x"), by decide⟩, by decide, ⟨'h', by decide, by decide⟩, by decide,
    C4_thm _ _ (Or.inr ⟨lc ("x"), by decide⟩) (by decide)
      ⟨'h', by decide, by decide⟩ (by decide)⟩

/-! ## Claim C7: the one-transcript scenario -/

def c7line1 : List Char :=
  lc ("\x7b\"type\":\"user\",\"timestamp\":\"2024-01-01T00:00:00Z\",\"message\":\x7b\"content\":\"hello world, please help me refactor this\"\x7d\x7d")

def c7line2 : List Char :=
  lc ("\x7b\"type\":\"assistant\",\"timestamp\":\"2024-01-01T01:00:00Z\"\x7d")

def c7dirs : List PDir :=
  [⟨lc ("-tmp-proj"), [⟨lc ("abc123.jsonl"), c7line1 ++ '\n' :: c7line2 ++ ['\n']⟩]⟩]

set_option maxRecDepth 10000 in
/-- C7 counterexample: in the claimed scenario the first user record's
content is 41 characters — within the 50-character budget — so the stored
summary is the content verbatim: it is not truncated and does not end in
an ellipsis marker, contradicting the claim's description of the
summary. -/
theorem C7_cex :
    ((get_saved_sessions c7dirs).map (fun l => l.map
      (fun s => (s.session_id, s.summary)))) =
      Except.ok [(lc ("abc123"),
        lc ("hello world, please help me refactor this"))] ∧
    (lc ("...")).isSuffixOf (lc ("hello world, please help me refactor this")) = false ∧
    (lc ("hello world, please help me refactor this")).length = 41 :=
  ⟨by rfl, by decide, by decide⟩

set_option maxRecDepth 10000 in
/-- C7 amended: the scenario yields exactly one SavedSession; its summary
is the first user record's content stored verbatim (41 characters, at most
the 50-character budget, hence no ellipsis marker), and its last-activity
timestamp is strictly after its creation timestamp. -/
theorem C7_thm :
    ((get_saved_sessions c7dirs).map (fun l => l.map
      (fun s => (s.session_id, s.summary, s.created, s.last_activity)))) =
      Except.ok [(lc ("abc123"),
        lc ("hello world, please help me refactor this"),
        dtCode 2024 1 1 0 0 0 0, dtCode 2024 1 1 1 0 0 0)] ∧
    dtCode 2024 1 1 0 0 0 0 < dtCode 2024 1 1 1 0 0 0 ∧
    truncSummary (lc ("hello world, please help me refactor this")) =
      lc ("hello world, please help me refactor this") :=
  ⟨by rfl, by decide, by decide⟩

/-! ## Claim C5: created vs. last-activity -/

/-- The timestamp the indexer reads from the first record of a file. -/
def firstTS (c : List Char) : Option Nat :=
  match jsonParse (strip (firstLine c)) with
  | some (JVal.jobj fo) =>
    (match jget fo (lc ("timestamp")) with
     | some (JVal.jstr ts) => parseTS (replaceZ ts)
     | _ => none)
  | _ => none

/-- The timestamp the indexer reads from the bounded-tail record of a
file. -/
def lastTS (c : List Char) : Option Nat :=
  match jsonParse (tailRead 4096 c) with
  | some (JVal.jobj lo) =>
    (match jget lo (lc ("timestamp")) with
     | some (JVal.jstr ts) => parseTS (replaceZ ts)
     | _ => none)
  | _ => none

/-- Chronological-order hypothesis on a transcript file: whenever both the
first-record and tail-record timestamps parse, the first is not after the
second. -/
def tsOrdered (c : List Char) : Bool :=
  match firstTS c, lastTS c with
  | some t1, some t2 => Nat.ble t1 t2
  | _, _ => true

theorem tsStage_ok_ts {fo : List (List Char × JVal)} {le : JVal}
    {nm fn pp summ : List Char} {s : Session}
    (h : tsStage fo le nm fn pp summ = ExtractR.ok s) :
    (∃ ts1, jget fo (lc ("timestamp")) = some (JVal.jstr ts1) ∧
      parseTS (replaceZ ts1) = some s.created) ∧
    (∃ lo ts2, le = JVal.jobj lo ∧
      jget lo (lc ("timestamp")) = some (JVal.jstr ts2) ∧
      parseTS (replaceZ ts2) = some s.last_activity) := by
  unfold tsStage at h
  split at h
  · exact ExtractR.noConfusion h
  · split at h
    · exact ExtractR.noConfusion h
    · split at h
      · split at h
        · exact ExtractR.noConfusion h
        · split at h
          · exact ExtractR.noConfusion h
          · cases h
            rename_i x1 ts1 hg1 x2 t1 ht1 le0 lo x3 ts2 hg2 x4 t2 ht2
            exact ⟨⟨ts1, hg1, ht1⟩, ⟨lo, ts2, rfl, hg2, ht2⟩⟩
        · exact ExtractR.noConfusion h
      · exact ExtractR.noConfusion h
  · exact ExtractR.noConfusion h

theorem extract_ok_ts {nm : List Char} {f : SFile} {s : Session}
    (h : extractSession nm f = ExtractR.ok s) :
    firstTS f.content = some s.created ∧ lastTS f.content = some s.last_activity := by
  simp only [extractSession] at h
  split at h
  · exact ExtractR.noConfusion h
  · split at h
    · exact ExtractR.noConfusion h
    · rename_i fe hpf
      split at h
      · exact ExtractR.noConfusion h
      · rename_i le hpl
        split at h
        · rename_i fo
          split at h
          · split at h
            · rename_i mo hmo
              obtain ⟨⟨ts1, hg1, ht1⟩, ⟨lo, ts2, hle, hg2, ht2⟩⟩ := tsStage_ok_ts h
              constructor
              · simp only [firstTS, hpf, hg1]
                exact ht1
              · rw [hle] at hpl
                simp only [lastTS, hpl, hg2]
                exact ht2
            · exact ExtractR.noConfusion h
          · obtain ⟨⟨ts1, hg1, ht1⟩, ⟨lo, ts2, hle, hg2, ht2⟩⟩ := tsStage_ok_ts h
            constructor
            · simp only [firstTS, hpf, hg1]
              exact ht1
            · rw [hle] at hpl
              simp only [lastTS, hpl, hg2]
              exact ht2
        · exact ExtractR.noConfusion h

theorem get_saved_mem {dirs : List PDir} {out : List Session} {s : Session}
    (h : get_saved_sessions dirs = Except.ok out) (hs : s ∈ out) :
    ExtractR.ok s ∈ dirs.flatMap
      (fun d => (d.files.filter (fun f => isJsonlName f.name)).map
        (extractSession d.name)) := by
  unfold get_saved_sessions at h
  cases hcol : collectR (dirs.flatMap
      (fun d => (d.files.filter (fun f => isJsonlName f.name)).map
        (extractSession d.name))) with
  | error e => rw [hcol] at h; cases h
  | ok l =>
    rw [hcol] at h
    simp only [Except.map] at h
    cases h
    exact collectR_mem hcol ((sortStable_perm _ l).mem_iff.mp hs)

/-- C5 amended: provided the transcript data is chronologically consistent
— for every file, whenever both the first-record timestamp and the
bounded-tail-record timestamp parse, the first is not after the second
(the storage contract of spec §4.2/§6) — every SavedSession emitted by the
indexer satisfies `created ≤ last_activity`.  The indexer itself performs
no such check: the two fields are stored verbatim. -/
theorem C5_thm (dirs : List PDir) (out : List Session)
    (h : get_saved_sessions dirs = Except.ok out)
    (hord : ∀ d ∈ dirs, ∀ f ∈ d.files, tsOrdered f.content = true) :
    ∀ s ∈ out, s.created ≤ s.last_activity := by
  intro s hs
  have hmem := get_saved_mem h hs
  rw [List.mem_flatMap] at hmem
  obtain ⟨d, hd, hmem2⟩ := hmem
  rw [List.mem_map] at hmem2
  obtain ⟨f, hf, hext⟩ := hmem2
  have hf2 : f ∈ d.files := (List.mem_filter.mp hf).1
  obtain ⟨h1, h2⟩ := extract_ok_ts hext
  have hto := hord d hd f hf2
  unfold tsOrdered at hto
  simp only [h1, h2] at hto
  exact Nat.le_of_ble_eq_true hto

def c5dirs : List PDir :=
  [⟨lc ("-r"), [⟨lc ("s.jsonl"),
    lc ("\x7b\"timestamp\":\"2024-02-01T00:00:00Z\"\x7d") ++ '\n' ::
      lc ("\x7b\"timestamp\":\"2024-01-01T00:00:00Z\"\x7d") ++ ['\n']⟩]⟩]

set_option maxRecDepth 10000 in
/-- C5 counterexample: a transcript whose first record is timestamped
after its last record yields a SavedSession with
`created > last_activity` — the indexer emits it without any ordering
check, so the claim fails on non-chronological input. -/
theorem C5_cex :
    ((get_saved_sessions c5dirs).map (fun l => l.map
      (fun s => decide (s.created ≤ s.last_activity)))) = Except.ok [false] := by
  rfl

set_option maxRecDepth 10000 in
/-- C5 witness: the amended invariant on a concrete chronologically
consistent store. -/
theorem C5_wit :
    (∀ d ∈ c2dirs, ∀ f ∈ d.files, tsOrdered f.content = true) ∧
    ∀ s ∈ [c2sess], s.created ≤ s.last_activity :=
  ⟨by decide, C5_thm c2dirs [c2sess] (by rfl) (by decide)⟩

/-! ## Claim C6: empty or unparsable first records -/

/-- The claim's hypothesis on the first record: the file is empty (or its
first line blank), the record has malformed JSON syntax, the required
`timestamp` field is missing, or the timestamp is malformed (not a
parsable ISO string). -/
def firstRecUnparsable (c : List Char) : Bool :=
  (strip (firstLine c)).isEmpty ||
  match jsonParse (strip (firstLine c)) with
  | none => true
  | some (JVal.jobj fo) =>
    (match jget fo (lc ("timestamp")) with
     | none => true
     | some (JVal.jstr ts) => (parseTS (replaceZ ts)).isNone
     | some _ => true)
  | some _ => false

/-- The shapes on which the source's `except` clause actually protects the
scan: the first record, if it parses, must be an object whose `user`
message (when consulted) is absent or an object, and whose `timestamp`
value (when present) is a string — otherwise an uncaught
`AttributeError`/`TypeError` aborts the whole scan instead of skipping the
file. -/
def firstRecTame (c : List Char) : Bool :=
  match jsonParse (strip (firstLine c)) with
  | none => true
  | some (JVal.jobj fo) =>
    (!(match jget fo (lc ("type")) with
       | some (JVal.jstr t) => t == lc ("user")
       | _ => false) ||
     (match (jget fo (lc ("message"))).getD (JVal.jobj []) with
      | JVal.jobj _ => true
      | _ => false)) &&
    (match jget fo (lc ("timestamp")) with
     | some (JVal.jstr _) => true
     | none => true
     | some _ => false)
  | some _ => false

theorem tsStage_skip {fo : List (List Char × JVal)} {le : JVal}
    {nm fn pp summ : List Char}
    (hbadts : (match jget fo (lc ("timestamp")) with
               | none => true
               | some (JVal.jstr ts) => (parseTS (replaceZ ts)).isNone
               | some _ => true) = true)
    (htss : (match jget fo (lc ("timestamp")) with
             | some (JVal.jstr _) => true
             | none => true
             | some _ => false) = true) :
    tsStage fo le nm fn pp summ = ExtractR.skip := by
  unfold tsStage
  cases hg : jget fo (lc ("timestamp")) with
  | none => rfl
  | some v =>
    cases v with
    | jstr ts =>
      simp only [hg] at hbadts
      cases hpt : parseTS (replaceZ ts) with
      | none => simp only [hpt]
      | some t =>
        rw [hpt] at hbadts
        simp at hbadts
    | jnull => simp [hg] at htss
    | jbool b => simp [hg] at htss
    | jnum r => simp [hg] at htss
    | jarr xs => simp [hg] at htss
    | jobj o => simp [hg] at htss

theorem extract_skip_of_bad (nm : List Char) (f : SFile)
    (hbad : firstRecUnparsable f.content = true)
    (htame : firstRecTame f.content = true) :
    extractSession nm f = ExtractR.skip := by
  unfold firstRecUnparsable at hbad
  unfold firstRecTame at htame
  simp only [extractSession]
  split
  · rfl
  · rename_i hemp
    have hemp' : (strip (firstLine f.content)).isEmpty = false :=
      Bool.eq_false_iff.mpr hemp
    rw [hemp', Bool.false_or] at hbad
    split
    · rfl
    · rename_i fe hpf
      split
      · rfl
      · rename_i le hpl
        cases fe with
        | jobj fo =>
          simp only [hpf] at hbad htame
          rw [Bool.and_eq_true] at htame
          obtain ⟨htm, hts⟩ := htame
          split
          · rename_i lo hfe
            injection hfe with hfe2
            subst hfe2
            split
            · rename_i hu
              rw [hu] at htm
              simp only [Bool.not_true, Bool.false_or] at htm
              cases hgd : (jget fo (lc ("message"))).getD (JVal.jobj []) with
              | jobj mo => exact tsStage_skip hbad hts
              | jnull => simp [hgd] at htm
              | jbool b => simp [hgd] at htm
              | jnum r => simp [hgd] at htm
              | jstr s2 => simp [hgd] at htm
              | jarr xs => simp [hgd] at htm
            · exact tsStage_skip hbad hts
          · rename_i hne
            exact absurd rfl (fun hh => hne fo hh)
        | jnull => simp [hpf] at hbad
        | jbool b => simp [hpf] at hbad
        | jnum r => simp [hpf] at hbad
        | jstr s2 => simp [hpf] at hbad
        | jarr xs => simp [hpf] at hbad

theorem collectR_skip_mid (X Y Z : List ExtractR) :
    collectR (X ++ (Y ++ ExtractR.skip :: Z)) = collectR (X ++ (Y ++ Z)) := by
  rw [← List.append_assoc, collectR_append_skip, List.append_assoc]

theorem skip_removal (dpre dpost : List PDir) (nm : List Char)
    (fpre fpost : List SFile) (f : SFile)
    (hskip : extractSession nm f = ExtractR.skip) :
    get_saved_sessions (dpre ++ ⟨nm, fpre ++ f :: fpost⟩ :: dpost) =
      get_saved_sessions (dpre ++ ⟨nm, fpre ++ fpost⟩ :: dpost) := by
  unfold get_saved_sessions
  congr 1
  simp only [List.flatMap_append, List.flatMap_cons, List.filter_append,
    List.filter_cons, List.map_append]
  by_cases hj : isJsonlName f.name = true
  · rw [if_pos hj]
    simp only [List.map_cons, hskip, List.cons_append, List.append_assoc]
    exact collectR_skip_mid _ _ _
  · rw [if_neg hj]

/-- C6 amended: for every transcript file whose first record is
unparsable in one of the enumerated senses (empty file / blank first line,
malformed JSON syntax, missing `timestamp` field, malformed timestamp
string) — provided the record does not additionally carry a shape that
escapes the source's `except` clause (a non-object record, a non-string
timestamp value, or a `user` record with a non-object `message`, all of
which raise an uncaught error and abort the whole scan) — the indexer
emits nothing for that file and the result is exactly as if the file were
not present. -/
theorem C6_thm (dpre dpost : List PDir) (nm : List Char)
    (fpre fpost : List SFile) (f : SFile)
    (hbad : firstRecUnparsable f.content = true)
    (htame : firstRecTame f.content = true) :
    extractSession nm f = ExtractR.skip ∧
    get_saved_sessions (dpre ++ ⟨nm, fpre ++ f :: fpost⟩ :: dpost) =
      get_saved_sessions (dpre ++ ⟨nm, fpre ++ fpost⟩ :: dpost) :=
  ⟨extract_skip_of_bad nm f hbad htame,
   skip_removal dpre dpost nm fpre fpost f (extract_skip_of_bad nm f hbad htame)⟩

def c6dirs1 : List PDir :=
  [⟨lc ("-p"), [⟨lc ("x.jsonl"), lc ("\x7b\"timestamp\": 5\x7d\n")⟩,
    ⟨lc ("g.jsonl"), c3line ++ ['\n']⟩]⟩]

def c6dirs2 : List PDir := [⟨lc ("-p"), [⟨lc ("g.jsonl"), c3line ++ ['\n']⟩]⟩]

set_option maxRecDepth 10000 in
/-- C6 counterexample: a first record with a malformed (non-string)
`timestamp` is within the claim's unparsable taxonomy, yet the scan does
not skip it and continue — `entry['timestamp'].replace` raises an uncaught
`AttributeError`, the whole scan aborts, and even the following good file
produces no session; removing the bad file restores the good session. -/
theorem C6_cex :
    firstRecUnparsable (lc ("\x7b\"timestamp\": 5\x7d\n")) = true ∧
    get_saved_sessions c6dirs1 = Except.error () ∧
    ((get_saved_sessions c6dirs2).map (fun l => l.map (fun s => s.session_id))) =
      Except.ok [lc ("g")] :=
  ⟨by decide, by rfl, by rfl⟩

set_option maxRecDepth 10000 in
/-- C6 witness: a syntactically malformed first record is skipped and the
scan result equals that of the store without the offending file. -/
theorem C6_wit :
    firstRecUnparsable (lc ("notjson\n")) = true ∧
    firstRecTame (lc ("notjson\n")) = true ∧
    (extractSession (lc ("-p")) ⟨lc ("u.jsonl"), lc ("notjson\n")⟩ = ExtractR.skip ∧
     get_saved_sessions
        [⟨lc ("-p"), [⟨lc ("u.jsonl"), lc ("notjson\n")⟩,
          ⟨lc ("g.jsonl"), c3line ++ ['\n']⟩]⟩] =
       get_saved_sessions [⟨lc ("-p"), [⟨lc ("g.jsonl"), c3line ++ ['\n']⟩]⟩]) :=
  ⟨by decide, by decide,
    C6_thm [] [] (lc ("-p")) [] [⟨lc ("g.jsonl"), c3line ++ ['\n']⟩]
      ⟨lc ("u.jsonl"), lc ("notjson\n")⟩ (by decide) (by decide)⟩
